import Mathlib

/-!
Verification development for the BlunderLab move-tree / timeline core.

The definitions below are a shallow embedding of the JavaScript sources:
  - src/tree.js        (move tree, tree session, app-state serialization)
  - src/core.js        (flat timeline helpers)
  - src/training.js    (training-mode controller)
  - the position-key indexer module (positionKeyFromFen)

JavaScript objects become Lean structures; the session path, which the
source keeps as a list of live node references (path[0] is the root and
each later entry is a child of its predecessor), is embedded as the list
of child indices taken from the root, so that "same reference" becomes
"same index path" exactly as the spec's design note on arena+index ports
describes.  Mutation becomes explicit state passing.
-/

/-- Move objects: from-square, to-square, optional promotion piece.
The JS object field named from is called fromSq here (from is a Lean
keyword); to becomes toSq. An absent promotion field is none. -/
structure Move where
  fromSq : String
  toSq : String
  promotion : Option String
deriving DecidableEq, Repr

/-- Embedding of sameMove from src/tree.js: structural equality on
from, to and promotion (undefined, i.e. none, only equal to none). -/
def sameMove (a b : Move) : Bool :=
  a.fromSq == b.fromSq && a.toSq == b.toSq && a.promotion == b.promotion

/-- Tree node from src/tree.js: an optional move (null at the root) and an
ordered list of children. -/
inductive Node where
  | mk (move : Option Move) (children : List Node)
deriving Repr

/-- Accessor for the move field of a node. -/
def Node.move : Node → Option Move
  | .mk m _ => m

/-- Accessor for the children field of a node. -/
def Node.children : Node → List Node
  | .mk _ cs => cs

/-- Embedding of createRoot from src/tree.js. -/
def createRoot : Node := Node.mk none []

/-- Embedding of createNode from src/tree.js. -/
def createNode (move : Move) : Node := Node.mk (some move) []

/-- Tree session from src/tree.js.  The source stores
path = [root, n1, n2, ...] as live references; here path is the list of
child indices [i1, i2, ...] with n1 = root.children[i1] and so on, so the
empty index list denotes the session sitting at the root. -/
structure Session where
  root : Node
  path : List Nat
deriving Repr

/-- Resolve an index path to the node it denotes, if every index is in
range. -/
def nodeAt : Node → List Nat → Option Node
  | n, [] => some n
  | n, i :: rest => (n.children[i]?).bind (fun c => nodeAt c rest)

/-- Session invariant of the spec (path[0] === root and each path[i+1] is
a child of path[i]): in the index embedding the whole path resolves. -/
def Session.valid (s : Session) : Prop := (nodeAt s.root s.path).isSome = true

instance (s : Session) : Decidable s.valid := by
  unfold Session.valid; infer_instance

/-- Embedding of currentNode from src/tree.js (last element of the path).
Under the session invariant the path always resolves; the default is
never reached on valid sessions. -/
def currentNode (s : Session) : Node := (nodeAt s.root s.path).getD createRoot

/-- Embedding of createTreeSession from src/tree.js. -/
def createTreeSession (root : Node := createRoot) : Session :=
  { root := root, path := [] }

/-- Result objects of the navigation and edit operations
({ ok, reason?, created?, node? } in the source). -/
structure OpResult where
  ok : Bool
  reason : Option String := none
  created : Option Bool := none
  node : Option Node := none
deriving Repr

/-- Embedding of goBack from src/tree.js. -/
def goBack (s : Session) : OpResult × Session :=
  if s.path.isEmpty then ({ ok := false, reason := some "at-root" }, s)
  else ({ ok := true }, { s with path := s.path.dropLast })

/-- Index of the first child of a node whose move matches the given move
(the find call shared by goForwardIfExists, isExpectedMove and
addVariationAndGo in src/tree.js). -/
def findChildIdx (n : Node) (moveObj : Move) : Option Nat :=
  n.children.findIdx? (fun c =>
    match c.move with
    | some m => sameMove m moveObj
    | none => false)

/-- Embedding of goForwardIfExists from src/tree.js. -/
def goForwardIfExists (s : Session) (moveObj : Move) : OpResult × Session :=
  let cur := currentNode s
  match findChildIdx cur moveObj with
  | none => ({ ok := false, reason := some "no-such-child" }, s)
  | some i =>
    ({ ok := true, node := cur.children[i]? }, { s with path := s.path ++ [i] })

/-- Embedding of resetSessionToRoot from src/tree.js. -/
def resetSessionToRoot (s : Session) : Session :=
  { root := s.root, path := [] }

/-- Apply a function to the node denoted by an index path, rebuilding the
spine (the functional rendering of in-place child mutation).  An
out-of-range index leaves the tree unchanged; it cannot occur on paths
satisfying the session invariant. -/
def modifyAt : Node → List Nat → (Node → Node) → Node
  | n, [], f => f n
  | n, i :: rest, f =>
    match n.children[i]? with
    | some c => Node.mk n.move (n.children.set i (modifyAt c rest f))
    | none => n

/-- Embedding of addVariationAndGo from src/tree.js: follow an existing
matching child, or append a fresh child and follow it. -/
def addVariationAndGo (s : Session) (moveObj : Move) : OpResult × Session :=
  let cur := currentNode s
  match findChildIdx cur moveObj with
  | some i =>
    ({ ok := true, created := some false, node := cur.children[i]? },
      { s with path := s.path ++ [i] })
  | none =>
    let child := createNode moveObj
    let newIdx := cur.children.length
    ({ ok := true, created := some true, node := some child },
      { root := modifyAt s.root s.path (fun n => Node.mk n.move (n.children ++ [child])),
        path := s.path ++ [newIdx] })

/-- Embedding of deleteCurrentAndGoParent from src/tree.js.  The source
looks the current node up in its parent's children by reference
(indexOf); in the index embedding the reference of the current node is
its final path index, so indexOf succeeds exactly when that index is in
range of the parent's children. -/
def deleteCurrentAndGoParent (s : Session) : OpResult × Session :=
  match s.path.getLast? with
  | none => ({ ok := false, reason := some "at-root" }, s)
  | some idx =>
    let parentPath := s.path.dropLast
    let cur := currentNode s
    if cur.children.length > 0 then
      ({ ok := false, reason := some "has-children" }, s)
    else
      let parent := (nodeAt s.root parentPath).getD createRoot
      if (parent.children[idx]?).isSome then
        ({ ok := true },
          { root := modifyAt s.root parentPath
              (fun n => Node.mk n.move (n.children.eraseIdx idx)),
            path := parentPath })
      else ({ ok := false, reason := some "not-a-child" }, s)

/-! Helper lemmas about path resolution. -/

theorem nodeAt_append (n : Node) (p q : List Nat) :
    nodeAt n (p ++ q) = (nodeAt n p).bind (fun m => nodeAt m q) := by
  induction p generalizing n with
  | nil => simp [nodeAt]
  | cons i rest ih =>
    simp only [List.cons_append, nodeAt]
    cases h : n.children[i]? with
    | none => simp
    | some c => simp [ih]

theorem nodeAt_dropLast_isSome {n : Node} {p : List Nat}
    (h : (nodeAt n p).isSome = true) : (nodeAt n p.dropLast).isSome = true := by
  rcases p.eq_nil_or_concat with rfl | ⟨q, i, rfl⟩
  · simpa using h
  · rw [List.concat_eq_append] at h ⊢
    rw [nodeAt_append] at h
    rw [List.dropLast_concat]
    cases hq : nodeAt n q with
    | none => rw [hq] at h; simp at h
    | some m => simp

theorem findIdx?_lt_length {α : Type} {l : List α} {p : α → Bool} {i : Nat}
    (h : l.findIdx? p = some i) : i < l.length :=
  (List.findIdx?_eq_some_iff_findIdx_eq.mp h).1

theorem nodeAt_modifyAt_self (n : Node) (p : List Nat) (f : Node → Node) :
    nodeAt (modifyAt n p f) p = (nodeAt n p).map f := by
  induction p generalizing n with
  | nil => simp [nodeAt, modifyAt]
  | cons i rest ih =>
    obtain ⟨m, cs⟩ := n
    simp only [modifyAt, Node.children, Node.move]
    cases hc : cs[i]? with
    | none => simp [nodeAt, Node.children, hc]
    | some c =>
      have hi : i < cs.length := by
        have h2 := List.getElem?_eq_some_iff.mp hc
        exact h2.choose
      simp only [nodeAt, Node.children]
      rw [List.getElem?_set_self (by simpa using hi), hc]
      simp [ih]

theorem isSome_getElem?_of_lt {α : Type} {l : List α} {i : Nat} (h : i < l.length) :
    (l[i]?).isSome = true := by
  simp [List.getElem?_eq_getElem h]

theorem nodeAt_eq_some_currentNode {s : Session} (h : s.valid) :
    nodeAt s.root s.path = some (currentNode s) := by
  unfold Session.valid at h
  cases hq : nodeAt s.root s.path with
  | none => rw [hq] at h; simp at h
  | some c => simp [currentNode, hq]

theorem valid_append_child {s : Session} {i : Nat} (h : s.valid)
    (hi : ((currentNode s).children[i]?).isSome = true) :
    (nodeAt s.root (s.path ++ [i])).isSome = true := by
  rw [nodeAt_append, nodeAt_eq_some_currentNode h]
  cases hc : (currentNode s).children[i]? with
  | none => rw [hc] at hi; simp at hi
  | some c => simp [nodeAt, hc]

theorem findChildIdx_getElem_isSome {n : Node} {mv : Move} {i : Nat}
    (h : findChildIdx n mv = some i) : (n.children[i]?).isSome = true :=
  isSome_getElem?_of_lt (findIdx?_lt_length h)

/-- C3: on a session satisfying the invariant (the whole path resolves
from the root), each of the five operations returns a session that again
satisfies the invariant, for any move argument and regardless of the
reported ok flag. -/
theorem session_ops_preserve_invariant (s : Session) (mv : Move) (h : s.valid) :
    (goBack s).2.valid ∧ (goForwardIfExists s mv).2.valid ∧
    (addVariationAndGo s mv).2.valid ∧ (resetSessionToRoot s).valid ∧
    (deleteCurrentAndGoParent s).2.valid := by
  refine ⟨?_, ?_, ?_, ?_, ?_⟩
  · unfold goBack
    by_cases hc : s.path.isEmpty
    · simpa [hc] using h
    · simp only [hc, Bool.false_eq_true, if_false]
      exact nodeAt_dropLast_isSome h
  · unfold goForwardIfExists
    cases hf : findChildIdx (currentNode s) mv with
    | none => simp only [hf]; exact h
    | some i =>
      simp only [hf]
      exact valid_append_child h (findChildIdx_getElem_isSome hf)
  · unfold addVariationAndGo
    cases hf : findChildIdx (currentNode s) mv with
    | some i =>
      simp only [hf]
      exact valid_append_child h (findChildIdx_getElem_isSome hf)
    | none =>
      simp only [hf, Session.valid]
      rw [nodeAt_append, nodeAt_modifyAt_self, nodeAt_eq_some_currentNode h]
      simp [nodeAt, Node.children, List.getElem?_concat_length]
  · simp [resetSessionToRoot, Session.valid, nodeAt]
  · unfold deleteCurrentAndGoParent
    cases hl : s.path.getLast? with
    | none => simp only [hl]; exact h
    | some idx =>
      simp only [hl]
      by_cases hch : (currentNode s).children.length > 0
      · simpa [hch] using h
      · simp only [hch, if_false]
        by_cases hpar : ((((nodeAt s.root s.path.dropLast).getD createRoot).children[idx]?).isSome = true)
        · simp only [hpar, if_true, Session.valid]
          rw [nodeAt_modifyAt_self]
          have hdl := nodeAt_dropLast_isSome h
          cases hq : nodeAt s.root s.path.dropLast with
          | none => rw [hq] at hdl; simp at hdl
          | some m => simp
        · simp only [hpar, Bool.false_eq_true, if_false]
          exact h

theorem lt_of_getElem?_isSome {α : Type} {l : List α} {i : Nat}
    (h : (l[i]?).isSome = true) : i < l.length := by
  cases hv : l[i]? with
  | none => rw [hv] at h; simp at h
  | some a => exact (List.getElem?_eq_some_iff.mp hv).choose

theorem sameMove_refl (a : Move) : sameMove a a = true := by
  simp [sameMove]

theorem findIdx?_concat_of_none {α : Type} {l : List α} {p : α → Bool} {x : α}
    (hl : l.findIdx? p = none) (hx : p x = true) :
    (l ++ [x]).findIdx? p = some l.length := by
  simp [List.findIdx?_append, hl, List.findIdx?_cons, hx]

/-- Predicate used by the child-matching find calls in src/tree.js:
the child has a move and it matches the probe move. -/
def childMatches (mv : Move) (c : Node) : Bool :=
  match c.move with
  | some m => sameMove m mv
  | none => false

theorem findChildIdx_eq_findIdx? (n : Node) (mv : Move) :
    findChildIdx n mv = n.children.findIdx? (childMatches mv) := by
  unfold findChildIdx childMatches
  rfl

theorem addVariationAndGo_eq_of_found (t : Session) (mv : Move) (i : Nat)
    (hf : findChildIdx (currentNode t) mv = some i) :
    addVariationAndGo t mv =
      ({ ok := true, created := some false, node := (currentNode t).children[i]? },
        { root := t.root, path := t.path ++ [i] }) := by
  unfold addVariationAndGo
  simp only [hf]

theorem addVariationAndGo_eq_of_not_found (t : Session) (mv : Move)
    (hf : findChildIdx (currentNode t) mv = none) :
    addVariationAndGo t mv =
      ({ ok := true, created := some true, node := some (createNode mv) },
        { root := modifyAt t.root t.path
            (fun n => Node.mk n.move (n.children ++ [createNode mv])),
          path := t.path ++ [(currentNode t).children.length] }) := by
  unfold addVariationAndGo
  simp only [hf]

/-- C4 (amended): starting from a valid session whose current node has no
child matching mv, calling addVariationAndGo twice from the same node
(returning to it in between) creates on the first call (ok, created=true),
follows on the second (ok, created=false), lands both calls on the same
node, and leaves the starting node with exactly one matching child. -/
theorem addVariationAndGo_twice_amended (s : Session) (mv : Move) (h : s.valid)
    (hnone : findChildIdx (currentNode s) mv = none) :
    (addVariationAndGo s mv).1.ok = true ∧
    (addVariationAndGo s mv).1.created = some true ∧
    (addVariationAndGo { root := (addVariationAndGo s mv).2.root, path := s.path } mv).1.ok = true ∧
    (addVariationAndGo { root := (addVariationAndGo s mv).2.root, path := s.path } mv).1.created = some false ∧
    (addVariationAndGo { root := (addVariationAndGo s mv).2.root, path := s.path } mv).2
      = (addVariationAndGo s mv).2 ∧
    (nodeAt (addVariationAndGo s mv).2.root s.path).map
        (fun n => n.children.countP (childMatches mv)) = some 1 := by
  have hcur : nodeAt s.root s.path = some (currentNode s) := nodeAt_eq_some_currentNode h
  have hnone' : (currentNode s).children.findIdx? (childMatches mv) = none := by
    rw [← findChildIdx_eq_findIdx?]; exact hnone
  have hchild : childMatches mv (createNode mv) = true := by
    simp [childMatches, createNode, Node.move, sameMove_refl]
  have h1 := addVariationAndGo_eq_of_not_found s mv hnone
  have hroot1 : nodeAt (addVariationAndGo s mv).2.root s.path
      = some (Node.mk (currentNode s).move ((currentNode s).children ++ [createNode mv])) := by
    rw [h1]
    simp only [nodeAt_modifyAt_self, hcur, Option.map_some']
  have hcn2 : currentNode { root := (addVariationAndGo s mv).2.root, path := s.path }
      = Node.mk (currentNode s).move ((currentNode s).children ++ [createNode mv]) := by
    simp [currentNode, hroot1]
  have hf2 : findChildIdx (currentNode { root := (addVariationAndGo s mv).2.root, path := s.path }) mv
      = some (currentNode s).children.length := by
    rw [findChildIdx_eq_findIdx?, hcn2]
    simp only [Node.children]
    exact findIdx?_concat_of_none hnone' hchild
  have h2 := addVariationAndGo_eq_of_found
    { root := (addVariationAndGo s mv).2.root, path := s.path } mv
    (currentNode s).children.length hf2
  refine ⟨by rw [h1], by rw [h1], by rw [h2], by rw [h2], ?_, ?_⟩
  · rw [h2]
    conv_rhs => rw [h1]
    rw [h1]
  · rw [hroot1]
    simp only [Option.map_some', Option.some.injEq, Node.children]
    rw [List.countP_append]
    have hz : (currentNode s).children.countP (childMatches mv) = 0 :=
      List.countP_eq_zero.mpr (fun a ha => by
        have hfa := List.findIdx?_eq_none_iff.mp hnone' a ha
        simp [hfa])
    simp only [hchild, List.countP_cons, List.countP_nil]
    have hz2 : List.countP (childMatches mv)
        (match currentNode s with | Node.mk _ cs => cs) = 0 := hz
    simp [hz2]

/-- C5: deleteCurrentAndGoParent fails with at-root at the root and with
has-children on a node with children (session unchanged in both cases);
on a non-root leaf it succeeds, pops the path to the parent and removes
exactly the deleted child (children count drops by exactly one). -/
theorem deleteCurrentAndGoParent_spec (s : Session) (h : s.valid) :
    (s.path = [] →
      deleteCurrentAndGoParent s = ({ ok := false, reason := some "at-root" }, s)) ∧
    (s.path ≠ [] → (currentNode s).children ≠ [] →
      deleteCurrentAndGoParent s = ({ ok := false, reason := some "has-children" }, s)) ∧
    (∀ q idx, s.path = q ++ [idx] → (currentNode s).children = [] →
      (deleteCurrentAndGoParent s).1.ok = true ∧
      (deleteCurrentAndGoParent s).2.path = q ∧
      (currentNode (deleteCurrentAndGoParent s).2).children
        = ((nodeAt s.root q).getD createRoot).children.eraseIdx idx ∧
      (currentNode (deleteCurrentAndGoParent s).2).children.length + 1
        = ((nodeAt s.root q).getD createRoot).children.length) := by
  refine ⟨?_, ?_, ?_⟩
  · intro hp
    have hl : s.path.getLast? = none := by simp [hp]
    unfold deleteCurrentAndGoParent
    simp only [hl]
  · intro hp hch
    obtain ⟨q, idx, hq⟩ : ∃ q idx, s.path = q ++ [idx] := by
      rcases s.path.eq_nil_or_concat with hnil | ⟨q, idx, hc⟩
      · exact absurd hnil hp
      · exact ⟨q, idx, by simpa [List.concat_eq_append] using hc⟩
    have hl : s.path.getLast? = some idx := by rw [hq]; exact List.getLast?_concat _
    have hlen : (currentNode s).children.length > 0 := List.length_pos.mpr hch
    unfold deleteCurrentAndGoParent
    simp only [hl, hlen, if_true]
  · intro q idx hq hleaf
    have hl : s.path.getLast? = some idx := by rw [hq]; exact List.getLast?_concat _
    have hdl : s.path.dropLast = q := by rw [hq]; exact List.dropLast_concat
    have hlen : ¬ (currentNode s).children.length > 0 := by simp [hleaf]
    obtain ⟨par, hpar⟩ : ∃ par, nodeAt s.root q = some par := by
      have h2 := h
      unfold Session.valid at h2
      rw [hq, nodeAt_append] at h2
      cases hv : nodeAt s.root q with
      | none => rw [hv] at h2; simp at h2
      | some m => exact ⟨m, rfl⟩
    obtain ⟨pm, pcs⟩ := par
    have hidx : (pcs[idx]?).isSome = true := by
      have h2 := h
      unfold Session.valid at h2
      rw [hq, nodeAt_append, hpar] at h2
      simpa [nodeAt, Node.children] using h2
    have hidxlt : idx < pcs.length := lt_of_getElem?_isSome hidx
    have hres : deleteCurrentAndGoParent s =
        ({ ok := true },
          { root := modifyAt s.root q
              (fun n => Node.mk n.move (n.children.eraseIdx idx)),
            path := q }) := by
      have hlen2 : ¬ (match currentNode s with | Node.mk _ cs => cs).length > 0 := hlen
      unfold deleteCurrentAndGoParent
      simp only [hl, hlen, hlen2, if_false, hdl, hpar, Option.getD_some, Node.children,
        hidx, if_true]
    refine ⟨by rw [hres], by rw [hres], ?_, ?_⟩
    · rw [hres]
      simp only [currentNode, nodeAt_modifyAt_self, hpar, Option.map_some',
        Option.getD_some, Node.children]
    · rw [hres]
      simp only [currentNode, nodeAt_modifyAt_self, hpar, Option.map_some',
        Option.getD_some, Node.children]
      rw [List.length_eraseIdx_of_lt hidxlt]
      omega

/-- Concrete move e2-e4 used in witnesses. -/
def mvE2E4 : Move := { fromSq := "e2", toSq := "e4", promotion := none }

/-- Concrete move e7-e5 used in witnesses. -/
def mvE7E5 : Move := { fromSq := "e7", toSq := "e5", promotion := none }

/-- Concrete move d2-d4 used in witnesses. -/
def mvD2D4 : Move := { fromSq := "d2", toSq := "d4", promotion := none }

/-- Session sitting on the single leaf child of a one-child root. -/
def demoSession : Session :=
  { root := Node.mk none [Node.mk (some mvE2E4) []], path := [0] }

/-- Session sitting at a root that already has an e2e4 child. -/
def dupSession : Session :=
  { root := Node.mk none [Node.mk (some mvE2E4) []], path := [] }

/-- Session sitting at a childless root. -/
def freshSession : Session := { root := Node.mk none [], path := [] }

/-- Witness for the C3 theorem at a concrete valid session. -/
theorem session_ops_preserve_invariant_witness :
    demoSession.valid ∧
    ((goBack demoSession).2.valid ∧ (goForwardIfExists demoSession mvD2D4).2.valid ∧
      (addVariationAndGo demoSession mvD2D4).2.valid ∧ (resetSessionToRoot demoSession).valid ∧
      (deleteCurrentAndGoParent demoSession).2.valid) :=
  ⟨by decide, session_ops_preserve_invariant demoSession mvD2D4 (by decide)⟩

/-- Counterexample for C4 as stated: on a valid session whose current
node already has a child matching the move, the first of the two
addVariationAndGo calls reports created=false, not created=true. -/
theorem addVariationAndGo_twice_counterexample :
    dupSession.valid ∧
    ¬ (addVariationAndGo dupSession mvE2E4).1.created = some true := by
  constructor
  · decide
  · decide

/-- Witness for the amended C4 theorem at a concrete session. -/
theorem addVariationAndGo_twice_amended_witness :
    freshSession.valid ∧ findChildIdx (currentNode freshSession) mvE2E4 = none ∧
    ((addVariationAndGo freshSession mvE2E4).1.created = some true ∧
      (addVariationAndGo { root := (addVariationAndGo freshSession mvE2E4).2.root, path := freshSession.path } mvE2E4).1.created = some false ∧
      (nodeAt (addVariationAndGo freshSession mvE2E4).2.root freshSession.path).map
        (fun n => n.children.countP (childMatches mvE2E4)) = some 1) :=
  ⟨by decide, by decide,
    (addVariationAndGo_twice_amended freshSession mvE2E4 (by decide) (by decide)).2.1,
    (addVariationAndGo_twice_amended freshSession mvE2E4 (by decide) (by decide)).2.2.2.1,
    (addVariationAndGo_twice_amended freshSession mvE2E4 (by decide) (by decide)).2.2.2.2.2⟩

/-- Witness for the C5 theorem at a concrete non-root leaf session. -/
theorem deleteCurrentAndGoParent_spec_witness :
    demoSession.valid ∧
    ((deleteCurrentAndGoParent demoSession).1.ok = true ∧
      (deleteCurrentAndGoParent demoSession).2.path = [] ∧
      (currentNode (deleteCurrentAndGoParent demoSession).2).children.length + 1
        = ((nodeAt demoSession.root []).getD createRoot).children.length) :=
  ⟨by decide,
    ((deleteCurrentAndGoParent_spec demoSession (by decide)).2.2 [] 0 rfl rfl).1,
    ((deleteCurrentAndGoParent_spec demoSession (by decide)).2.2 [] 0 rfl rfl).2.1,
    ((deleteCurrentAndGoParent_spec demoSession (by decide)).2.2 [] 0 rfl rfl).2.2.2⟩

/-! Timeline helpers from src/core.js. -/

/-- Embedding of the private clamp helper in src/core.js
(Math.max(min, Math.min(max, n))). -/
def clamp (n lo hi : Int) : Int := max lo (min hi n)

/-- Result object of branchLineIfNeeded ({ newLine, basePly, cut }). -/
structure BranchResult where
  newLine : List Move
  basePly : Nat
  cut : Bool
deriving DecidableEq, Repr

/-- Embedding of branchLineIfNeeded from src/core.js: clamp the cursor,
leave the line alone when the clamped cursor is at or past the end, else
truncate to the clamped cursor. -/
def branchLineIfNeeded (fullLine : List Move) (viewPly : Int) : BranchResult :=
  let ply := clamp viewPly 0 fullLine.length
  if ply ≥ fullLine.length then
    { newLine := fullLine, basePly := fullLine.length, cut := false }
  else
    let newLine := fullLine.take ply.toNat
    { newLine := newLine, basePly := newLine.length, cut := true }

/-- Result object of applyEditInPast ({ line, viewPly }). -/
structure EditResult where
  line : List Move
  viewPly : Nat
deriving DecidableEq, Repr

/-- Embedding of applyEditInPast from src/core.js: thin wrapper around
branchLineIfNeeded. -/
def applyEditInPast (fullLine : List Move) (viewPly : Int) : EditResult :=
  let r := branchLineIfNeeded fullLine viewPly
  { line := r.newLine, viewPly := r.basePly }

/-- C6: branchLineIfNeeded returns the same line with cut=false and
basePly=length when the clamped cursor is at or past the end, and
otherwise the line truncated to exactly the clamped cursor with cut=true
and basePly equal to that cursor; applyEditInPast returns the truncated
line with viewPly equal to its length. -/
theorem branchLineIfNeeded_spec (fullLine : List Move) (viewPly : Int) :
    (clamp viewPly 0 fullLine.length ≥ fullLine.length →
      branchLineIfNeeded fullLine viewPly
        = { newLine := fullLine, basePly := fullLine.length, cut := false }) ∧
    (clamp viewPly 0 fullLine.length < fullLine.length →
      branchLineIfNeeded fullLine viewPly
        = { newLine := fullLine.take (clamp viewPly 0 fullLine.length).toNat,
            basePly := (clamp viewPly 0 fullLine.length).toNat, cut := true } ∧
      (fullLine.take (clamp viewPly 0 fullLine.length).toNat).length
        = (clamp viewPly 0 fullLine.length).toNat) ∧
    applyEditInPast fullLine viewPly
      = { line := (branchLineIfNeeded fullLine viewPly).newLine,
          viewPly := (branchLineIfNeeded fullLine viewPly).newLine.length } := by
  have hcl : 0 ≤ clamp viewPly 0 fullLine.length := by
    unfold clamp
    exact le_max_left 0 _
  refine ⟨?_, ?_, ?_⟩
  · intro hge
    unfold branchLineIfNeeded
    simp only [hge, if_true]
  · intro hlt
    have hnb : ¬ (clamp viewPly 0 fullLine.length ≥ (fullLine.length : Int)) := by omega
    have htk : (fullLine.take (clamp viewPly 0 fullLine.length).toNat).length
        = (clamp viewPly 0 fullLine.length).toNat := by
      rw [List.length_take]
      omega
    refine ⟨?_, htk⟩
    unfold branchLineIfNeeded
    simp only [hnb, if_false, htk]
  · unfold applyEditInPast branchLineIfNeeded
    by_cases hge : clamp viewPly 0 fullLine.length ≥ (fullLine.length : Int)
    · simp only [hge, if_true]
    · simp only [hge, if_false]

/-- Concrete move d7-d5 used in witnesses. -/
def mvD7D5 : Move := { fromSq := "d7", toSq := "d5", promotion := none }

/-- Concrete four-ply line used in witnesses. -/
def demoLine : List Move := [mvE2E4, mvE7E5, mvD2D4, mvD7D5]

/-- Witness for the C6 theorem: editing at ply 2 of a four-ply line cuts
the last two moves. -/
theorem branchLineIfNeeded_spec_witness :
    clamp 2 0 demoLine.length < demoLine.length ∧
    (branchLineIfNeeded demoLine 2
      = { newLine := [mvE2E4, mvE7E5], basePly := 2, cut := true } ∧
      applyEditInPast demoLine 2 = { line := [mvE2E4, mvE7E5], viewPly := 2 }) := by
  refine ⟨by decide, ?_, ?_⟩
  · exact ((branchLineIfNeeded_spec demoLine 2).2.1 (by decide)).1
  · have h := (branchLineIfNeeded_spec demoLine 2).2.2
    rw [((branchLineIfNeeded_spec demoLine 2).2.1 (by decide)).1] at h
    exact h

/-! Training controller from src/training.js. -/

/-- Study color in training mode (the spec types studyColor as the string
"white" or "black"). -/
inductive Color where
  | white
  | black
deriving DecidableEq, Repr

/-- Modelled from the spec: isUsersTurn is imported by src/training.js
from core.js, but its definition is not among the provided sources (only
its unit tests are).  Spec 4.4 step 1: true iff the ply parity matches
the study color (even ply is white's move). -/
def isUsersTurn (studyColor : Color) (ply : Nat) : Bool :=
  match studyColor with
  | .white => ply % 2 == 0
  | .black => ply % 2 == 1

/-- Modelled from the spec: expectedMove is imported by src/training.js
from core.js, but its definition is not among the provided sources (only
its unit tests are).  Spec 4.4 step 2: the move at index viewPly in the
mainline, or null if viewPly is at or past the end. -/
def expectedMove (fullLine : List Move) (ply : Nat) : Option Move :=
  fullLine[ply]?

/-- Applied-move record returned by the external move executor
(resolved move plus notation). -/
structure Applied where
  move : Move
  san : String
deriving DecidableEq, Repr

/-- One observable callback invocation made by the controller. -/
inductive TrainEvent where
  | makeMove (m : Move)
  | setPly (p : Nat)
deriving DecidableEq, Repr

/-- Value returned by handleTrainingMove: the literal true sentinel, the
applied-move record of the first makeMove call, or null. -/
inductive TrainResult where
  | sentinelTrue
  | applied (mv : Applied)
  | nullResult
deriving DecidableEq, Repr

/-- Injected callbacks, as oracles: the first argument is the per-callback
call counter inside a single handleTrainingMove invocation (a stateful JS
callback may answer differently on its second call), Except.error models
the callback throwing. -/
structure TrainCallbacks where
  makeMove : Nat → Move → Except Unit (Option Applied)
  setGameToPly : Nat → Nat → Except Unit Unit

/-- Embedding of handleTrainingMove from src/training.js.  The returned
event list records every callback invocation in order; invocations whose
outcome the source ignores (a call inside try/catch whose result is
discarded) are recorded without consulting the oracle, since their
outcome cannot influence the control flow.  An uncaught exception is the
Except.error result; note the source does not wrap its first makeMove
call in try/catch, so that exception propagates. -/
def handleTrainingMove (cb : TrainCallbacks) (fullLine : List Move) (viewPly : Nat)
    (studyColor : Color) (moveObj : Move) :
    Except Unit (TrainResult × List TrainEvent) :=
  let userTurn := isUsersTurn studyColor viewPly
  let expected := expectedMove fullLine viewPly
  if userTurn = false then
    Except.ok (TrainResult.nullResult, [TrainEvent.setPly viewPly])
  else if (match expected with | some e => sameMove e moveObj | none => false) then
    let oppExpected := expectedMove fullLine (viewPly + 1)
    let target := if oppExpected.isSome then viewPly + 2 else viewPly + 1
    match cb.setGameToPly 0 target with
    | Except.ok _ => Except.ok (TrainResult.sentinelTrue, [TrainEvent.setPly target])
    | Except.error _ =>
      Except.ok (TrainResult.nullResult,
        [TrainEvent.setPly target, TrainEvent.setPly viewPly])
  else if viewPly = fullLine.length then
    match cb.makeMove 0 moveObj with
    | Except.error e => Except.error e
    | Except.ok none =>
      Except.ok (TrainResult.nullResult,
        [TrainEvent.makeMove moveObj, TrainEvent.setPly viewPly])
    | Except.ok (some mv) =>
      match expectedMove fullLine (viewPly + 1) with
      | some opp =>
        Except.ok (TrainResult.applied mv,
          [TrainEvent.makeMove moveObj,
            TrainEvent.makeMove
              { fromSq := opp.fromSq, toSq := opp.toSq, promotion := opp.promotion }])
      | none => Except.ok (TrainResult.applied mv, [TrainEvent.makeMove moveObj])
  else
    Except.ok (TrainResult.nullResult, [TrainEvent.setPly viewPly])

/-- C1: on the user's turn, when the expected mainline move matches the
attempt and an opponent reply exists in the mainline, the controller
issues exactly one display call, setGameToPly(viewPly+2), never invokes
makeMove, and returns the true sentinel (not a move record); with no
opponent reply it instead issues setGameToPly(viewPly+1). -/
theorem handleTrainingMove_correct_advance (cb : TrainCallbacks) (fullLine : List Move)
    (viewPly : Nat) (studyColor : Color) (moveObj e : Move)
    (hturn : isUsersTurn studyColor viewPly = true)
    (hexp : expectedMove fullLine viewPly = some e)
    (hmatch : sameMove e moveObj = true) :
    (∀ o, expectedMove fullLine (viewPly + 1) = some o →
      cb.setGameToPly 0 (viewPly + 2) = Except.ok () →
      handleTrainingMove cb fullLine viewPly studyColor moveObj
        = Except.ok (TrainResult.sentinelTrue, [TrainEvent.setPly (viewPly + 2)])) ∧
    (expectedMove fullLine (viewPly + 1) = none →
      cb.setGameToPly 0 (viewPly + 1) = Except.ok () →
      handleTrainingMove cb fullLine viewPly studyColor moveObj
        = Except.ok (TrainResult.sentinelTrue, [TrainEvent.setPly (viewPly + 1)])) := by
  constructor
  · intro o hopp hsp
    unfold handleTrainingMove
    simp only [hturn, hexp, hmatch, hopp, Option.isSome_some, if_true, hsp]
    simp
  · intro hopp hsp
    unfold handleTrainingMove
    simp only [hturn, hexp, hmatch, hopp, Option.isSome_none, if_true, hsp]
    simp [hsp]

/-- C7: at the end of the mainline on the user's turn, the controller
calls makeMove with the attempted move; a falsy result restores the
display to viewPly and yields null, a truthy applied record is returned
as the result. -/
theorem handleTrainingMove_end_extension (cb : TrainCallbacks) (fullLine : List Move)
    (viewPly : Nat) (studyColor : Color) (moveObj : Move)
    (hturn : isUsersTurn studyColor viewPly = true)
    (hend : viewPly = fullLine.length) :
    (cb.makeMove 0 moveObj = Except.ok none →
      handleTrainingMove cb fullLine viewPly studyColor moveObj
        = Except.ok (TrainResult.nullResult,
            [TrainEvent.makeMove moveObj, TrainEvent.setPly viewPly])) ∧
    (∀ a, cb.makeMove 0 moveObj = Except.ok (some a) →
      handleTrainingMove cb fullLine viewPly studyColor moveObj
        = Except.ok (TrainResult.applied a, [TrainEvent.makeMove moveObj])) := by
  subst hend
  have hexp : expectedMove fullLine fullLine.length = none := by
    simp [expectedMove]
  have hopp : expectedMove fullLine (fullLine.length + 1) = none := by
    simp [expectedMove]
  constructor
  · intro hmm
    unfold handleTrainingMove
    simp [hturn, hexp, hmm]
  · intro a hmm
    unfold handleTrainingMove
    simp [hturn, hexp, hmm, hopp]

/-- Number of makeMove invocations recorded in a successful run (an
escaped exception records none). -/
def countMakeMoveEvents (out : Except Unit (TrainResult × List TrainEvent)) : Nat :=
  match out with
  | Except.ok (_, evs) =>
    evs.countP (fun ev => match ev with | TrainEvent.makeMove _ => true | _ => false)
  | Except.error _ => 0

/-- C10: a single handleTrainingMove invocation calls makeMove at most
once; in the end-of-line extension path the opponent lookup at index
viewPly+1 is evaluated against the pre-move snapshot, where the index is
past the end of the line, so it always yields null and the second
makeMove call is unreachable. -/
theorem handleTrainingMove_makeMove_at_most_once (cb : TrainCallbacks)
    (fullLine : List Move) (viewPly : Nat) (studyColor : Color) (moveObj : Move) :
    countMakeMoveEvents (handleTrainingMove cb fullLine viewPly studyColor moveObj) ≤ 1 ∧
    (∀ line : List Move, expectedMove line (line.length + 1) = none) := by
  constructor
  · unfold handleTrainingMove
    by_cases ht : isUsersTurn studyColor viewPly = false
    · simp [ht, countMakeMoveEvents]
    · simp only [ht, if_false]
      by_cases hm : (match expectedMove fullLine viewPly with
        | some e => sameMove e moveObj | none => false) = true
      · simp only [hm, if_true]
        cases cb.setGameToPly 0
            (if (expectedMove fullLine (viewPly + 1)).isSome then viewPly + 2
              else viewPly + 1) with
        | ok u => simp [countMakeMoveEvents]
        | error u => simp [countMakeMoveEvents]
      · simp only [Bool.not_eq_true] at hm
        simp only [hm, Bool.false_eq_true, if_false]
        by_cases hv : viewPly = fullLine.length
        · have hopp : expectedMove fullLine (fullLine.length + 1) = none := by
            simp [expectedMove]
          simp only [hv, if_true, hopp]
          cases cb.makeMove 0 moveObj with
          | error u => simp [countMakeMoveEvents]
          | ok r =>
            cases r with
            | none => simp [countMakeMoveEvents]
            | some a => simp [countMakeMoveEvents]
        · simp [hv, countMakeMoveEvents]
  · intro line
    simp [expectedMove]

/-- Callbacks whose move executor always throws. -/
def throwingCallbacks : TrainCallbacks :=
  { makeMove := fun _ _ => Except.error ()
    setGameToPly := fun _ _ => Except.ok () }

/-- Callbacks that always succeed: the executor echoes an applied record. -/
def okCallbacks : TrainCallbacks :=
  { makeMove := fun _ m => Except.ok (some { move := m, san := "" })
    setGameToPly := fun _ _ => Except.ok () }

/-- Counterexample for C2 as stated: at the end of the line (empty line,
viewPly 0, user to move), a makeMove callback that throws makes
handleTrainingMove itself throw, because the source does not wrap its
first makeMove call in try/catch. -/
theorem handleTrainingMove_never_throws_counterexample :
    handleTrainingMove throwingCallbacks [] 0 Color.white mvE2E4 = Except.error () := rfl

/-- Successful-completion test for a controller run (the run did not
escape with an exception). -/
def trainOk (out : Except Unit (TrainResult × List TrainEvent)) : Bool :=
  match out with
  | Except.ok _ => true
  | Except.error _ => false

/-- C2 (amended): handleTrainingMove never throws provided the
end-of-line user makeMove call does not throw (errors from every
setGameToPly call and from the opponent auto-play makeMove are swallowed),
and every rejection path - not the user's turn, wrong move mid-line,
failed display update, move rejected at the end of the line - invokes
setGameToPly with the original pre-attempt viewPly and returns null. -/
theorem handleTrainingMove_error_handling_amended (cb : TrainCallbacks)
    (fullLine : List Move) (viewPly : Nat) (studyColor : Color) (moveObj : Move) :
    (cb.makeMove 0 moveObj ≠ Except.error () →
      trainOk (handleTrainingMove cb fullLine viewPly studyColor moveObj) = true) ∧
    (isUsersTurn studyColor viewPly = false →
      handleTrainingMove cb fullLine viewPly studyColor moveObj
        = Except.ok (TrainResult.nullResult, [TrainEvent.setPly viewPly])) ∧
    (∀ e, isUsersTurn studyColor viewPly = true →
      expectedMove fullLine viewPly = some e → sameMove e moveObj = true →
      cb.setGameToPly 0 (if (expectedMove fullLine (viewPly + 1)).isSome then viewPly + 2 else viewPly + 1) = Except.error () →
      handleTrainingMove cb fullLine viewPly studyColor moveObj
        = Except.ok (TrainResult.nullResult,
            [TrainEvent.setPly (if (expectedMove fullLine (viewPly + 1)).isSome then viewPly + 2 else viewPly + 1),
              TrainEvent.setPly viewPly])) ∧
    (isUsersTurn studyColor viewPly = true →
      (match expectedMove fullLine viewPly with
        | some e => sameMove e moveObj | none => false) = false →
      viewPly ≠ fullLine.length →
      handleTrainingMove cb fullLine viewPly studyColor moveObj
        = Except.ok (TrainResult.nullResult, [TrainEvent.setPly viewPly])) ∧
    (isUsersTurn studyColor viewPly = true →
      (match expectedMove fullLine viewPly with
        | some e => sameMove e moveObj | none => false) = false →
      viewPly = fullLine.length → cb.makeMove 0 moveObj = Except.ok none →
      handleTrainingMove cb fullLine viewPly studyColor moveObj
        = Except.ok (TrainResult.nullResult,
            [TrainEvent.makeMove moveObj, TrainEvent.setPly viewPly])) := by
  refine ⟨?_, ?_, ?_, ?_, ?_⟩
  · intro hmm
    unfold handleTrainingMove
    by_cases ht : isUsersTurn studyColor viewPly = false
    · simp [ht, trainOk]
    · by_cases hm : (match expectedMove fullLine viewPly with
        | some e => sameMove e moveObj | none => false) = true
      · cases hsp : cb.setGameToPly 0
            (if (expectedMove fullLine (viewPly + 1)).isSome then viewPly + 2
              else viewPly + 1) with
        | ok u => simp [ht, hm, hsp, trainOk]
        | error u => simp [ht, hm, hsp, trainOk]
      · simp only [Bool.not_eq_true] at hm
        by_cases hv : viewPly = fullLine.length
        · subst hv
          cases hcase : cb.makeMove 0 moveObj with
          | error u => exact absurd hcase hmm
          | ok r =>
            cases r with
            | none => simp [ht, hm, hcase, trainOk]
            | some a =>
              cases hopp : expectedMove fullLine (fullLine.length + 1) with
              | some opp => simp [ht, hm, hcase, hopp, trainOk]
              | none => simp [ht, hm, hcase, hopp, trainOk]
        · simp [ht, hm, hv, trainOk]
  · intro ht
    unfold handleTrainingMove
    simp [ht]
  · intro e ht hexp hmatch hsp
    unfold handleTrainingMove
    simp only [ht, hexp, hmatch, if_true, hsp]
    simp
  · intro ht hm hv
    unfold handleTrainingMove
    simp [ht, hm, hv]
  · intro ht hm hv hmm
    subst hv
    unfold handleTrainingMove
    simp [ht, hm, hmm]

/-- Witness for the C1 theorem: drilling white on the two-ply mainline
e2e4 e7e5 at ply 0, submitting e2e4 advances the display straight to
ply 2 with no executor call. -/
theorem handleTrainingMove_correct_advance_witness :
    handleTrainingMove okCallbacks [mvE2E4, mvE7E5] 0 Color.white mvE2E4
      = Except.ok (TrainResult.sentinelTrue, [TrainEvent.setPly 2]) :=
  (handleTrainingMove_correct_advance okCallbacks [mvE2E4, mvE7E5] 0 Color.white mvE2E4 mvE2E4
    (by decide) (by decide) (by decide)).1 mvE7E5 (by decide) rfl

/-- Witness for the amended C2 theorem: a wrong move in the middle of
the line restores the display and returns null. -/
theorem handleTrainingMove_error_handling_amended_witness :
    handleTrainingMove okCallbacks [mvE2E4, mvE7E5] 0 Color.white mvD2D4
      = Except.ok (TrainResult.nullResult, [TrainEvent.setPly 0]) :=
  (handleTrainingMove_error_handling_amended okCallbacks [mvE2E4, mvE7E5] 0
    Color.white mvD2D4).2.2.2.1 (by decide) (by decide) (by decide)

/-- Witness for the C7 theorem: extending past the end of a two-ply line
returns the applied record of the executor. -/
theorem handleTrainingMove_end_extension_witness :
    handleTrainingMove okCallbacks [mvE2E4, mvE7E5] 2 Color.white mvD2D4
      = Except.ok (TrainResult.applied { move := mvD2D4, san := "" },
          [TrainEvent.makeMove mvD2D4]) :=
  (handleTrainingMove_end_extension okCallbacks [mvE2E4, mvE7E5] 2 Color.white mvD2D4
    (by decide) (by decide)).2 { move := mvD2D4, san := "" } rfl

/-! Position-key indexer: positionKeyFromFen. -/

/-- The space character (written via its code point). -/
def spaceChar : Char := Char.ofNat 32

/-- Helper for splitting a character list into maximal runs of
non-whitespace characters, carrying the run built so far. -/
def wordsAux : List Char → List Char → List (List Char)
  | [], acc => if acc.isEmpty then [] else [acc]
  | c :: cs, acc =>
    if c.isWhitespace then
      if acc.isEmpty then wordsAux cs [] else acc :: wordsAux cs []
    else wordsAux cs (acc ++ [c])

/-- Embedding of fen.trim().split(re-whitespace-plus) from the indexer
module: the maximal whitespace-free runs of the string.  (On an
all-whitespace input JS yields a single empty string where this yields
no run at all; both fall to the too-few-fields error below.) -/
def words (l : List Char) : List (List Char) := wordsAux l []

/-- Embedding of the normalization of the optional castling/en-passant
fields (field && field !== "" ? field : "-"). -/
def normField (f : List Char) : List Char := if f.isEmpty then ['-'] else f

/-- Embedding of positionKeyFromFen from the indexer module, applied to
a string: fails when fewer than four whitespace-separated fields are
present, else joins piece placement, side to move, and the normalized
castling and en-passant fields with single spaces. -/
def positionKeyFromFen (fen : String) : Except String String :=
  match words fen.data with
  | pieces :: turn :: castling :: ep :: _ =>
    Except.ok (String.mk
      (pieces ++ spaceChar :: (turn ++ spaceChar ::
        (normField castling ++ spaceChar :: normField ep))))
  | _ => Except.error ("invalid FEN")

/-- Embedding of positionKeyFromFen on an arbitrary JS value: the source
first rejects any non-string input (typeof fen !== "string"). -/
inductive Json where
  | null
  | bool (b : Bool)
  | num (n : Int)
  | str (s : String)
  | arr (items : List Json)
  | obj (fields : List (String × Json))

def positionKeyFromFenJs (j : Json) : Except String String :=
  match j with
  | Json.str s => positionKeyFromFen s
  | _ => Except.error ("fen must be a string")

/-- Error test for a position-key computation. -/
def fenKeyErrors (r : Except String String) : Bool :=
  match r with
  | Except.error _ => true
  | Except.ok _ => false

theorem wordsAux_mem {l : List Char} : ∀ {acc : List Char},
    (∀ ch ∈ acc, ¬ ch.isWhitespace = true) →
    ∀ w ∈ wordsAux l acc, w ≠ [] ∧ ∀ ch ∈ w, ¬ ch.isWhitespace = true := by
  induction l with
  | nil =>
    intro acc hacc w hw
    unfold wordsAux at hw
    by_cases he : acc.isEmpty
    · simp [he] at hw
    · simp only [he, Bool.false_eq_true, if_false, List.mem_singleton] at hw
      subst hw
      exact ⟨by simpa using he, hacc⟩
  | cons c cs ih =>
    intro acc hacc w hw
    unfold wordsAux at hw
    by_cases hws : c.isWhitespace
    · by_cases he : acc.isEmpty
      · rw [if_pos hws, if_pos he] at hw
        exact ih (by simp) w hw
      · rw [if_pos hws, if_neg he] at hw
        rcases List.mem_cons.mp hw with rfl | hw2
        · exact ⟨by simpa using he, hacc⟩
        · exact ih (by simp) w hw2
    · rw [if_neg hws] at hw
      refine ih ?_ w hw
      intro ch hch
      rcases List.mem_append.mp hch with h1 | h2
      · exact hacc ch h1
      · rw [List.mem_singleton] at h2
        subst h2
        simpa using hws

theorem words_mem (l : List Char) :
    ∀ w ∈ words l, w ≠ [] ∧ ∀ ch ∈ w, ¬ ch.isWhitespace = true :=
  wordsAux_mem (by simp)

theorem wordsAux_append_space (p : List Char) (rest : List Char) :
    ∀ acc : List Char, (∀ ch ∈ p, ¬ ch.isWhitespace = true) → acc ++ p ≠ [] →
    wordsAux (p ++ spaceChar :: rest) acc = (acc ++ p) :: wordsAux rest [] := by
  induction p with
  | nil =>
    intro acc hp hne
    simp only [List.nil_append, List.append_nil] at hne ⊢
    have hsp : spaceChar.isWhitespace = true := by decide
    have hae : ¬ acc.isEmpty := by simpa using hne
    conv_lhs => unfold wordsAux
    simp [hsp, hae]
  | cons c p2 ih =>
    intro acc hp hne
    have hcw : ¬ c.isWhitespace = true := hp c (by simp)
    show wordsAux (c :: (p2 ++ spaceChar :: rest)) acc = _
    conv_lhs => unfold wordsAux
    rw [if_neg (by simpa using hcw)]
    rw [ih (acc ++ [c]) (fun ch hch => hp ch (by simp [hch])) (by simp)]
    simp

theorem wordsAux_last (p : List Char) :
    ∀ acc : List Char, (∀ ch ∈ p, ¬ ch.isWhitespace = true) → acc ++ p ≠ [] →
    wordsAux p acc = [acc ++ p] := by
  induction p with
  | nil =>
    intro acc hp hne
    simp only [List.append_nil] at hne ⊢
    have hae : ¬ acc.isEmpty := by simpa using hne
    conv_lhs => unfold wordsAux
    simp [hae]
  | cons c p2 ih =>
    intro acc hp hne
    have hcw : ¬ c.isWhitespace = true := hp c (by simp)
    conv_lhs => unfold wordsAux
    rw [if_neg (by simpa using hcw)]
    rw [ih (acc ++ [c]) (fun ch hch => hp ch (by simp [hch])) (by simp)]
    simp

theorem words_join4 (p t c e : List Char)
    (hp : ∀ ch ∈ p, ¬ ch.isWhitespace = true) (hpn : p ≠ [])
    (ht : ∀ ch ∈ t, ¬ ch.isWhitespace = true) (htn : t ≠ [])
    (hc : ∀ ch ∈ c, ¬ ch.isWhitespace = true) (hcn : c ≠ [])
    (he : ∀ ch ∈ e, ¬ ch.isWhitespace = true) (hen : e ≠ []) :
    words (p ++ spaceChar :: (t ++ spaceChar :: (c ++ spaceChar :: e))) = [p, t, c, e] := by
  unfold words
  rw [wordsAux_append_space p _ [] hp (by simpa using hpn)]
  rw [wordsAux_append_space t _ [] ht (by simpa using htn)]
  rw [wordsAux_append_space c _ [] hc (by simpa using hcn)]
  rw [wordsAux_last e [] he (by simpa using hen)]
  simp

theorem normField_of_ne_nil {f : List Char} (h : f ≠ []) : normField f = f := by
  unfold normField
  simp [h]

/-- C9: positionKeyFromFen errors exactly on a non-string input or fewer
than four whitespace-separated fields; two well-formed FENs agreeing on
the first four fields (differing only in the counters) get identical
keys; two well-formed FENs differing in side to move, castling rights or
en-passant field get different keys. -/
theorem positionKeyFromFen_spec :
    (∀ j : Json, (∀ s, j ≠ Json.str s) →
      fenKeyErrors (positionKeyFromFenJs j) = true) ∧
    (∀ s : String,
      fenKeyErrors (positionKeyFromFen s) = true ↔ (words s.data).length < 4) ∧
    (∀ f1 f2 : String, ∀ p t c e r1 r2,
      words f1.data = p :: t :: c :: e :: r1 →
      words f2.data = p :: t :: c :: e :: r2 →
      positionKeyFromFen f1 = positionKeyFromFen f2) ∧
    (∀ f1 f2 : String, ∀ p1 t1 c1 e1 r1 p2 t2 c2 e2 r2,
      words f1.data = p1 :: t1 :: c1 :: e1 :: r1 →
      words f2.data = p2 :: t2 :: c2 :: e2 :: r2 →
      (t1 ≠ t2 ∨ c1 ≠ c2 ∨ e1 ≠ e2) →
      positionKeyFromFen f1 ≠ positionKeyFromFen f2) := by
  have keyEq : ∀ (f : String) (p t c e : List Char) (r : List (List Char)),
      words f.data = p :: t :: c :: e :: r → c ≠ [] → e ≠ [] →
      positionKeyFromFen f = Except.ok (String.mk
        (p ++ spaceChar :: (t ++ spaceChar :: (c ++ spaceChar :: e)))) := by
    intro f p t c e r hw hc he
    unfold positionKeyFromFen
    rw [hw]
    show Except.ok (String.mk
      (p ++ spaceChar :: (t ++ spaceChar ::
        (normField c ++ spaceChar :: normField e)))) = _
    rw [normField_of_ne_nil hc, normField_of_ne_nil he]
  refine ⟨?_, ?_, ?_, ?_⟩
  · intro j hj
    cases j with
    | str s => exact absurd rfl (hj s)
    | null => rfl
    | bool b => rfl
    | num n => rfl
    | arr xs => rfl
    | obj fs => rfl
  · intro s
    cases hw : words s.data with
    | nil => simp [positionKeyFromFen, hw, fenKeyErrors]
    | cons p rest =>
      cases rest with
      | nil => simp [positionKeyFromFen, hw, fenKeyErrors]
      | cons t rest2 =>
        cases rest2 with
        | nil => simp [positionKeyFromFen, hw, fenKeyErrors]
        | cons c rest3 =>
          cases rest3 with
          | nil => simp [positionKeyFromFen, hw, fenKeyErrors]
          | cons e r =>
            simp [positionKeyFromFen, hw, fenKeyErrors]
  · intro f1 f2 p t c e r1 r2 h1 h2
    have hcne : c ≠ [] := (words_mem f1.data c (by rw [h1]; simp)).1
    have hene : e ≠ [] := (words_mem f1.data e (by rw [h1]; simp)).1
    rw [keyEq f1 p t c e r1 h1 hcne hene, keyEq f2 p t c e r2 h2 hcne hene]
  · intro f1 f2 p1 t1 c1 e1 r1 p2 t2 c2 e2 r2 h1 h2 hdiff heq
    have hp1 := words_mem f1.data p1 (by rw [h1]; simp)
    have ht1 := words_mem f1.data t1 (by rw [h1]; simp)
    have hc1 := words_mem f1.data c1 (by rw [h1]; simp)
    have he1 := words_mem f1.data e1 (by rw [h1]; simp)
    have hp2 := words_mem f2.data p2 (by rw [h2]; simp)
    have ht2 := words_mem f2.data t2 (by rw [h2]; simp)
    have hc2 := words_mem f2.data c2 (by rw [h2]; simp)
    have he2 := words_mem f2.data e2 (by rw [h2]; simp)
    rw [keyEq f1 p1 t1 c1 e1 r1 h1 hc1.1 he1.1,
      keyEq f2 p2 t2 c2 e2 r2 h2 hc2.1 he2.1] at heq
    have hkey : (p1 ++ spaceChar :: (t1 ++ spaceChar :: (c1 ++ spaceChar :: e1)))
        = (p2 ++ spaceChar :: (t2 ++ spaceChar :: (c2 ++ spaceChar :: e2))) :=
      congrArg String.data (Except.ok.inj heq)
    have hw1 := words_join4 p1 t1 c1 e1 hp1.2 hp1.1 ht1.2 ht1.1 hc1.2 hc1.1 he1.2 he1.1
    have hw2 := words_join4 p2 t2 c2 e2 hp2.2 hp2.1 ht2.2 ht2.1 hc2.2 hc2.1 he2.2 he2.1
    rw [hkey, hw2] at hw1
    have hfields : p1 = p2 ∧ t1 = t2 ∧ c1 = c2 ∧ e1 = e2 := by
      simpa using hw1.symm
    rcases hdiff with hd | hd | hd
    · exact hd hfields.2.1
    · exact hd hfields.2.2.1
    · exact hd hfields.2.2.2

/-- Witness for the C9 theorem at the spec's concrete FENs: the empty
board with both move counters varied maps to one key, and a flipped side
to move gives a different key. -/
theorem positionKeyFromFen_spec_witness :
    positionKeyFromFen "8/8/8/8/8/8/8/8 w - - 0 1"
      = positionKeyFromFen "8/8/8/8/8/8/8/8 w - - 12 37" ∧
    positionKeyFromFen "8/8/8/8/8/8/8/8 w - - 0 1"
      ≠ positionKeyFromFen "8/8/8/8/8/8/8/8 b - - 0 1" := by
  constructor
  · exact (positionKeyFromFen_spec.2.2.1)
      "8/8/8/8/8/8/8/8 w - - 0 1" "8/8/8/8/8/8/8/8 w - - 12 37"
      "8/8/8/8/8/8/8/8".data "w".data "-".data "-".data
      ["0".data, "1".data] ["12".data, "37".data]
      (by decide) (by decide)
  · exact (positionKeyFromFen_spec.2.2.2)
      "8/8/8/8/8/8/8/8 w - - 0 1" "8/8/8/8/8/8/8/8 b - - 0 1"
      "8/8/8/8/8/8/8/8".data "w".data "-".data "-".data ["0".data, "1".data]
      "8/8/8/8/8/8/8/8".data "b".data "-".data "-".data ["0".data, "1".data]
      (by decide) (by decide) (Or.inl (by decide))

/-! App-state serialization from src/tree.js.  JSON.stringify/JSON.parse
on plain data is value-identity, so serialization is embedded as
producing the JSON value itself; deserializeAppState consumes an
arbitrary JSON value and mirrors the source's validation. -/

/-- Field lookup in a JSON object (objects produced here have unique
keys, so first match is the JS property access). -/
def getField : List (String × Json) → String → Option Json
  | [], _ => none
  | (k, v) :: rest, key => if k = key then some v else getField rest key

/-- Property access with the JS missing-field default (undefined and
null both behave as the falsy non-value below). -/
def jsGet (f : List (String × Json)) (key : String) : Json :=
  (getField f key).getD Json.null

/-- JS truthiness of a JSON value. -/
def jsTruthy : Json → Bool
  | Json.null => false
  | Json.bool b => b
  | Json.num n => !(n == 0)
  | Json.str s => !(s == "")
  | Json.arr _ => true
  | Json.obj _ => true

/-- The String() coercion of JS, exact on the atomic values this
serializer emits (only ever applied to strings on round-trip data). -/
def jsToString : Json → String
  | Json.str s => s
  | Json.num n => toString n
  | Json.bool b => if b then "true" else "false"
  | Json.null => "null"
  | Json.arr _ => ""
  | Json.obj _ => ""

/-- Encoding of a move object under JSON.stringify: an undefined
promotion field is dropped. -/
def encodeMove (m : Move) : Json :=
  Json.obj ([("from", Json.str m.fromSq), ("to", Json.str m.toSq)] ++
    (match m.promotion with
      | some pr => [("promotion", Json.str pr)]
      | none => []))

/-- Typed reading of a JSON value as a move; whatever is not a move
object yields none (exact on the images of encodeMove). -/
def decodeMove : Json → Option Move
  | Json.obj f =>
    some { fromSq := (match getField f "from" with | some (Json.str s) => s | _ => "")
           toSq := (match getField f "to" with | some (Json.str s) => s | _ => "")
           promotion := (match getField f "promotion" with
             | some (Json.str s) => some s
             | _ => none) }
  | _ => none

mutual
/-- Encoding of a tree node under JSON.stringify ({ move, children }). -/
def encodeNode : Node → Json
  | Node.mk m cs =>
    Json.obj [("move", match m with | some mv => encodeMove mv | none => Json.null),
      ("children", Json.arr (encodeNodes cs))]

def encodeNodes : List Node → List Json
  | [] => []
  | c :: cs => encodeNode c :: encodeNodes cs
end

mutual
/-- Typed reading of a parsed JSON node, with the normalizeTree
semantics of the source: a missing or non-array children field becomes
the empty list (exact on the images of encodeNode). -/
def decodeNode : Json → Node
  | Json.obj f => Node.mk (decodeMove (jsGet f "move")) (decodeChildren f)
  | _ => Node.mk none []

def decodeChildren : List (String × Json) → List Node
  | [] => []
  | (k, v) :: rest =>
    if k = "children" then
      match v with
      | Json.arr xs => decodeNodes xs
      | _ => []
    else decodeChildren rest

def decodeNodes : List Json → List Node
  | [] => []
  | x :: xs => decodeNode x :: decodeNodes xs
end

/-- Embedding of deserializeTree from src/tree.js: the root must be an
object with an array children field; the tree below is then read with
normalizeTree defaults. -/
def deserializeTree (j : Json) : Except String Node :=
  match j with
  | Json.obj f =>
    match getField f "children" with
    | some (Json.arr _) => Except.ok (decodeNode (Json.obj f))
    | _ => Except.error ("deserializeTree: root.children must be array")
  | _ => Except.error ("deserializeTree: root must be object")

/-- Opening record from src/tree.js ({ id, name, trainAs, lastPath, root }). -/
structure Opening where
  id : String
  name : String
  trainAs : String
  lastPath : List Move
  root : Node
deriving Repr

/-- App state from src/tree.js ({ schemaVersion, openings, activeOpeningId }). -/
structure AppState where
  schemaVersion : Int
  openings : List Opening
  activeOpeningId : Option String
deriving Repr

/-- Embedding of the SCHEMA_VERSION constant from src/tree.js. -/
def SCHEMA_VERSION : Int := 1

/-- Encoding of one opening inside serializeAppState. -/
def encodeOpening (o : Opening) : Json :=
  Json.obj [("id", Json.str o.id), ("name", Json.str o.name),
    ("trainAs", Json.str o.trainAs),
    ("lastPath", Json.arr (o.lastPath.map encodeMove)),
    ("root", encodeNode o.root)]

/-- Embedding of serializeAppState from src/tree.js (up to the final
JSON.stringify, which is modeled as the identity on the JSON value). -/
def serializeAppState (st : AppState) : Json :=
  Json.obj [("schemaVersion", Json.num SCHEMA_VERSION),
    ("openings", Json.arr (st.openings.map encodeOpening)),
    ("activeOpeningId", match st.activeOpeningId with
      | some a => Json.str a
      | none => Json.null)]

/-- Decoding of one opening inside deserializeAppState: requires truthy
id, name and trainAs, coerces id and name through String(), maps any
trainAs other than the exact string white to black, keeps lastPath only
if it is an array, and parses the tree through deserializeTree. -/
def decodeOpening (j : Json) : Except String Opening :=
  match j with
  | Json.obj f =>
    if jsTruthy (jsGet f "id") && jsTruthy (jsGet f "name")
        && jsTruthy (jsGet f "trainAs") then
      match deserializeTree (jsGet f "root") with
      | Except.error e => Except.error e
      | Except.ok root =>
        Except.ok
          { id := jsToString (jsGet f "id")
            name := jsToString (jsGet f "name")
            trainAs := (match jsGet f "trainAs" with
              | Json.str s => if s = "white" then "white" else "black"
              | _ => "black")
            lastPath := (match getField f "lastPath" with
              | some (Json.arr xs) =>
                xs.map (fun x =>
                  (decodeMove x).getD { fromSq := "", toSq := "", promotion := none })
              | _ => [])
            root := root }
    else Except.error ("deserializeAppState: opening missing fields")
  | _ => Except.error ("deserializeAppState: opening must be object")

/-- Embedding of deserializeAppState from src/tree.js (after the JSON.parse
step, modeled as the identity on the JSON value): schema version must
match, openings must be an array, and a truthy activeOpeningId matching
no opening id is silently reset to null. -/
def deserializeAppState (j : Json) : Except String AppState :=
  match j with
  | Json.obj f =>
    match getField f "schemaVersion" with
    | some (Json.num v) =>
      if v = SCHEMA_VERSION then
        match getField f "openings" with
        | some (Json.arr os) =>
          match os.mapM decodeOpening with
          | Except.error e => Except.error e
          | Except.ok openings =>
            match jsGet f "activeOpeningId" with
            | Json.str a =>
              if jsTruthy (Json.str a) && !(openings.any (fun o => o.id == a)) then
                Except.ok (AppState.mk SCHEMA_VERSION openings none)
              else
                Except.ok (AppState.mk SCHEMA_VERSION openings (some a))
            | _ =>
              Except.ok (AppState.mk SCHEMA_VERSION openings none)
        | _ => Except.error ("deserializeAppState: openings must be array")
      else Except.error ("deserializeAppState: unsupported schemaVersion")
    | _ => Except.error ("deserializeAppState: unsupported schemaVersion")
  | _ => Except.error ("deserializeAppState: invalid json")

theorem decodeMove_encodeMove (m : Move) : decodeMove (encodeMove m) = some m := by
  obtain ⟨f, t, pr⟩ := m
  cases pr with
  | none => simp [encodeMove, decodeMove, getField]
  | some p => simp [encodeMove, decodeMove, getField]

mutual
theorem decodeNode_encodeNode : ∀ n : Node, decodeNode (encodeNode n) = n
  | Node.mk m cs => by
    have hcs := decodeNodes_encodeNodes cs
    cases m with
    | none =>
      simp [encodeNode, decodeNode, decodeChildren, jsGet, getField, decodeMove, hcs]
    | some mv =>
      simp [encodeNode, decodeNode, decodeChildren, jsGet, getField,
        decodeMove_encodeMove mv, hcs]

theorem decodeNodes_encodeNodes : ∀ cs : List Node, decodeNodes (encodeNodes cs) = cs
  | [] => by simp [encodeNodes, decodeNodes]
  | c :: cs => by
    simp [encodeNodes, decodeNodes, decodeNode_encodeNode c, decodeNodes_encodeNodes cs]
end

theorem deserializeTree_encodeNode (n : Node) :
    deserializeTree (encodeNode n) = Except.ok n := by
  obtain ⟨m, cs⟩ := n
  have h1 : deserializeTree (encodeNode (Node.mk m cs))
      = Except.ok (decodeNode (encodeNode (Node.mk m cs))) := rfl
  rw [h1, decodeNode_encodeNode]

theorem decodeOpening_encodeOpening (o : Opening) (hid : o.id ≠ "")
    (hname : o.name ≠ "") (htr : o.trainAs = "white" ∨ o.trainAs = "black") :
    decodeOpening (encodeOpening o) = Except.ok o := by
  obtain ⟨oid, oname, otr, opath, oroot⟩ := o
  simp only [] at hid hname htr
  have hroot := deserializeTree_encodeNode oroot
  have hmv : ∀ mv : Move,
      (decodeMove (encodeMove mv)).getD { fromSq := "", toSq := "", promotion := none }
        = mv := by
    intro mv
    rw [decodeMove_encodeMove]
    rfl
  unfold decodeOpening encodeOpening
  rcases htr with h | h <;> subst h <;>
    (simp [jsGet, getField, jsTruthy, jsToString, hid, hname, hroot, hmv,
      List.map_map, Function.comp];
     exact (List.map_congr_left (fun a _ => hmv a)).trans (List.map_id opath))

theorem mapM_decodeOpening (l : List Opening)
    (h : ∀ o ∈ l, o.id ≠ "" ∧ o.name ≠ "" ∧ (o.trainAs = "white" ∨ o.trainAs = "black")) :
    (l.map encodeOpening).mapM decodeOpening = Except.ok l := by
  induction l with
  | nil => rfl
  | cons o rest ih =>
    have ho := h o (by simp)
    have hrest := ih (fun x hx => h x (by simp [hx]))
    simp only [List.map_cons, List.mapM_cons]
    rw [decodeOpening_encodeOpening o ho.1 ho.2.1 ho.2.2]
    rw [hrest]
    rfl

/-- C8 (amended): deserializing a serialized app state whose openings
all have non-empty id and name and a trainAs of white or black succeeds
and reproduces the openings exactly (id, name, trainAs, lastPath and
whole tree); the activeOpeningId survives unless it is non-empty and
matches no opening id, in which case it is reset to null - an
empty-string activeOpeningId is falsy in JS, skips the dangling-id
check, and is kept as-is. -/
theorem roundtrip_amended (st : AppState)
    (hop : ∀ o ∈ st.openings,
      o.id ≠ "" ∧ o.name ≠ "" ∧ (o.trainAs = "white" ∨ o.trainAs = "black")) :
    deserializeAppState (serializeAppState st)
      = Except.ok (AppState.mk SCHEMA_VERSION st.openings
          (match st.activeOpeningId with
            | none => none
            | some a =>
              if (!(a == "") && !(st.openings.any (fun o => o.id == a))) = true
              then none else some a)) := by
  obtain ⟨ver, ops, aid⟩ := st
  have hmap := mapM_decodeOpening ops (by simpa using hop)
  cases aid with
  | none =>
    have step1 : deserializeAppState (serializeAppState (AppState.mk ver ops none))
        = (match (ops.map encodeOpening).mapM decodeOpening with
            | Except.error e => Except.error e
            | Except.ok openings =>
              Except.ok (AppState.mk SCHEMA_VERSION openings none)) := rfl
    rw [step1, hmap]
  | some a =>
    have step1 : deserializeAppState (serializeAppState (AppState.mk ver ops (some a)))
        = (match (ops.map encodeOpening).mapM decodeOpening with
            | Except.error e => Except.error e
            | Except.ok openings =>
              if (!(a == "") && !(openings.any (fun o => o.id == a))) = true then
                Except.ok (AppState.mk SCHEMA_VERSION openings none)
              else
                Except.ok (AppState.mk SCHEMA_VERSION openings (some a))) := rfl
    rw [step1, hmap]
    show (if (!(a == "") && !(ops.any (fun o => o.id == a))) = true then
        Except.ok (AppState.mk SCHEMA_VERSION ops none)
      else Except.ok (AppState.mk SCHEMA_VERSION ops (some a)))
      = Except.ok (AppState.mk SCHEMA_VERSION ops
          (if (!(a == "") && !(ops.any (fun o => o.id == a))) = true then none
            else some a))
    by_cases hc : (!(a == "") && !(ops.any (fun o => o.id == a))) = true
    · rw [if_pos hc, if_pos hc]
    · rw [if_neg hc, if_neg hc]

/-- Counterexample for C8 as stated: with no openings and an
activeOpeningId of the empty string (which matches no opening id), the
round trip keeps the empty string instead of resetting it to null,
because the empty string is falsy and the dangling-id check is skipped. -/
theorem roundtrip_counterexample :
    (deserializeAppState (serializeAppState (AppState.mk 1 [] (some "")))).map
        (fun st => st.activeOpeningId) = Except.ok (some "") ∧
    some "" ≠ (none : Option String) := by
  constructor
  · rfl
  · simp

/-- Opening with a two-ply tree used in the round-trip witness. -/
def demoOpening : Opening :=
  Opening.mk "op1" "Demo" "white" [mvE2E4]
    (Node.mk none [Node.mk (some mvE2E4) [Node.mk (some mvE7E5) []]])

/-- App state whose active id dangles, used in the round-trip witness. -/
def demoState : AppState := AppState.mk 1 [demoOpening] (some "gone")

/-- Witness for the amended C8 theorem: a concrete state with one
opening and a dangling non-empty activeOpeningId round-trips to the same
opening with activeOpeningId reset to null. -/
theorem roundtrip_amended_witness :
    (∀ o ∈ demoState.openings,
      o.id ≠ "" ∧ o.name ≠ "" ∧ (o.trainAs = "white" ∨ o.trainAs = "black")) ∧
    deserializeAppState (serializeAppState demoState)
      = Except.ok (AppState.mk SCHEMA_VERSION [demoOpening] none) := by
  have hop : ∀ o ∈ demoState.openings,
      o.id ≠ "" ∧ o.name ≠ "" ∧ (o.trainAs = "white" ∨ o.trainAs = "black") := by
    intro o ho
    simp only [demoState, List.mem_singleton] at ho
    subst ho
    exact ⟨by decide, by decide, Or.inl rfl⟩
  refine ⟨hop, ?_⟩
  rw [roundtrip_amended demoState hop]
  rfl
